import Mathlib

/-!
Shallow embedding of the search-result consolidation and query-translation
engine of the resources Azure API (`src/functions/search_resources.py`,
helpers from `src/shared/utils.py`).

Conventions of the embedding:
* Python dictionaries keyed by strings become association lists
  (`List (String × _)`) with Python `dict` semantics: lookup of the first
  matching key, in-place value update, insertion at the end.
* Python documents (search results) are modelled by the structure `Doc`
  carrying exactly the fields the engine reads (`id`, `resource_version`,
  `score`, `date`, `gem5_versions`); a missing key is `none`.
  For the response clean-up step (which manipulates arbitrary keys) the
  document is modelled separately as a string-keyed association list.
* Python `int` values are `Int`; search scores are modelled as `Int`
  (only their linear order matters to the code under verification).
* Character classes of the Python regexes (`\w`, whitespace) are modelled
  over their ASCII meaning (`Char.isAlphanum`, `Char.isWhitespace`).
* `sorted(xs, key=k)` is modelled by the stable `List.mergeSort` with the
  boolean relation `k a ≤ k b`; `sorted(xs, key=k, reverse=True)` with
  `k b ≤ k a`.  Python's `sorted` is documented stable, and with
  `reverse=True` equal elements also keep their original order, which is
  exactly `mergeSort` with the reversed relation.
-/

/-! ## Basic Python string helpers -/

/-- Model of Python's `str.strip()`: remove leading and trailing whitespace. -/
def pyStrip (s : String) : String :=
  ⟨((s.data.dropWhile Char.isWhitespace).reverse.dropWhile Char.isWhitespace).reverse⟩

/-- Digit-run parser used by `pyInt`: consumes decimal digits, allowing a
single underscore between two digits (Python's integer-literal rule). -/
def pyDigitsGo : List Char → Nat → Option Nat
  | [], acc => some acc
  | c :: rest, acc =>
    if c.isDigit then pyDigitsGo rest (acc * 10 + (c.toNat - 48))
    else if c = '_' then
      match rest with
      | d :: _ => if d.isDigit then pyDigitsGo rest acc else none
      | [] => none
    else none

/-- Parse a nonempty digit string (first character must be a digit). -/
def pyDigits (l : List Char) : Option Nat :=
  match l with
  | [] => none
  | c :: _ => if c.isDigit then pyDigitsGo l 0 else none

/-- Model of Python's `int(str)`: strip whitespace, optional sign, then
decimal digits (underscores allowed between digits); `none` models the
`ValueError` raised on anything else. -/
def pyInt (s : String) : Option Int :=
  match (pyStrip s).data with
  | '+' :: rest => (pyDigits rest).map (fun n => (n : Int))
  | '-' :: rest => (pyDigits rest).map (fun n => -(n : Int))
  | t => (pyDigits t).map (fun n => (n : Int))

/-- Model of Python's whitespace `str.split()` (no separator): split on runs
of whitespace, dropping empty pieces. -/
def pySplitWsAux : List Char → List Char → List String
  | [], acc => if acc.isEmpty then [] else [⟨acc.reverse⟩]
  | c :: rest, acc =>
    if c.isWhitespace then
      if acc.isEmpty then pySplitWsAux rest []
      else ⟨acc.reverse⟩ :: pySplitWsAux rest []
    else pySplitWsAux rest (c :: acc)

/-- Python `str.split()` with no argument. -/
def pySplitWs (s : String) : List String := pySplitWsAux s.data []

/-- Model of Python's `sep.join(xs)`. -/
def pyJoin (sep : String) : List String → String
  | [] => ""
  | [x] => x
  | x :: y :: rest => x ++ sep ++ pyJoin sep (y :: rest)

/-- Separator-based splitting on a character predicate, with Python
`str.split(sep)` semantics: empty pieces are kept, the empty string yields
one empty piece.  (Structural recursion; behaves like core `String.split`.) -/
def splitCharAux (p : Char → Bool) : List Char → List Char → List String
  | [], acc => [⟨acc.reverse⟩]
  | c :: rest, acc =>
    if p c then ⟨acc.reverse⟩ :: splitCharAux p rest []
    else splitCharAux p rest (c :: acc)

/-- Split a string at every character satisfying the predicate. -/
def splitChar (p : Char → Bool) (s : String) : List String :=
  splitCharAux p s.data []

/-! ## Version parsing (`parse_version`, search_resources.py lines 299-313) -/

/-- The fallible part of `parse_version`: `version_str.split(".")` mapped
through `int`; `none` models the `ValueError` path. -/
def try_parse_version (version_str : String) : Option (List Int) :=
  (splitChar (fun c => c = '.') version_str).mapM pyInt

/-- Source `parse_version`: tuple of ints on success, `(0, 0, 0)` when any
component fails to parse.  Python tuples of ints become `List Int`. -/
def parse_version (version_str : String) : List Int :=
  (try_parse_version version_str).getD [0, 0, 0]

/-- Python's `<` on tuples of integers (lexicographic, a strict prefix is
smaller). -/
def vlt : List Int → List Int → Bool
  | [], [] => false
  | [], _ :: _ => true
  | _ :: _, [] => false
  | x :: xs, y :: ys => x < y || (x == y && vlt xs ys)

/-! ## The document model -/

/-- The fields of a search-result document that the consolidation and
sorting code reads.  `none` models an absent key (`dict.get` default). -/
structure Doc where
  id : Option String := none
  resource_version : Option String := none
  score : Option Int := none
  date : Option String := none
  gem5_versions : Option (List String) := none
deriving DecidableEq, Repr

/-- `parse_version(doc.get("resource_version", "0.0.0"))` as used in
`keep_latest_versions`. -/
def getVersion (d : Doc) : List Int :=
  parse_version (d.resource_version.getD "0.0.0")

/-- `doc.get("score", 0)` as used in `keep_latest_versions`. -/
def getScore (d : Doc) : Int := d.score.getD 0

/-! ## Association lists with Python dict semantics -/

/-- Lookup of the value stored under a key. -/
def alookup {β : Type} (k : String) : List (String × β) → Option β
  | [] => none
  | (k', v) :: rest => if k' = k then some v else alookup k rest

/-- In-place replacement of the value stored under a key (present keys keep
their position, exactly like assignment to an existing Python dict key). -/
def aupdate {β : Type} (k : String) (v : β) : List (String × β) → List (String × β)
  | [] => []
  | (k', v') :: rest => if k' = k then (k', v) :: rest else (k', v') :: aupdate k v rest

/-! ## `keep_latest_versions` (search_resources.py lines 316-358) -/

/-- State of the loop in `keep_latest_versions`: the two insertion-ordered
dicts `latest_by_id` and `max_score_by_id`. -/
abbrev KLVState := List (String × Doc) × List (String × Int)

/-- One iteration of the loop in `keep_latest_versions`.  A document whose
`id` is missing or falsy (the empty string) is skipped.  A fresh id is
inserted at the end of both dicts; otherwise the running max score is
updated, and the stored document is replaced only when the new parsed
version strictly exceeds the stored one. -/
def klv_step (st : KLVState) (doc : Doc) : KLVState :=
  match doc.id with
  | none => st
  | some resource_id =>
    if resource_id = "" then st
    else
      let current_version := getVersion doc
      let current_score := getScore doc
      let scores :=
        match alookup resource_id st.2 with
        | none => st.2 ++ [(resource_id, current_score)]
        | some s => aupdate resource_id (max s current_score) st.2
      let latest :=
        match alookup resource_id st.1 with
        | none => st.1 ++ [(resource_id, doc)]
        | some existing =>
          if vlt (getVersion existing) current_version
          then aupdate resource_id doc st.1
          else st.1
      (latest, scores)

/-- Source `keep_latest_versions`: fold the loop over the results, then
overwrite each representative's score with its id's running maximum and
return the values of `latest_by_id` in insertion order. -/
def keep_latest_versions (results : List Doc) : List Doc :=
  let st := results.foldl klv_step ([], [])
  st.1.map (fun e => { e.2 with score := some ((alookup e.1 st.2).getD 0) })

/-! ## Per-id projections of the consolidation fold -/

/-- The per-id view of the `latest_by_id` update: keep the running best
document, replacing it only on a strictly larger parsed version. -/
def bestDocAcc (acc : Option Doc) : List Doc → Option Doc
  | [] => acc
  | d :: rest =>
    bestDocAcc
      (match acc with
       | none => some d
       | some e => if vlt (getVersion e) (getVersion d) then some d else some e) rest

/-- The per-id view of the `max_score_by_id` update: running maximum of
`doc.get("score", 0)`. -/
def maxScoreAcc (acc : Option Int) : List Doc → Option Int
  | [] => acc
  | d :: rest =>
    maxScoreAcc
      (match acc with
       | none => some (getScore d)
       | some s => some (max s (getScore d))) rest

/-- Documents sharing the non-falsy logical id `k`, in candidate order. -/
def sameId (k : String) (results : List Doc) : List Doc :=
  results.filter (fun d => d.id = some k)

/-! ## Auxiliary predicates and concrete fixture documents -/

/-- Python truthiness test `not resource_id` on `doc.get("id")`: true when
the id key is absent or the empty string. -/
def falsyId (d : Doc) : Bool :=
  match d.id with
  | none => true
  | some s => s == ""

/-- True when the version string parses as dot-separated integers (the
non-fallback path of `parse_version`). -/
def parses (version_str : String) : Bool :=
  (try_parse_version version_str).isSome

/-- Fixture: stored document id `R1`, version `1.0.0`, score 5. -/
def wDocA : Doc := { id := some "R1", resource_version := some "1.0.0", score := some 5 }

/-- Fixture: stored document id `R1`, version `2.0.0`, score 2. -/
def wDocB : Doc := { id := some "R1", resource_version := some "2.0.0", score := some 2 }

/-- Fixture: the consolidated representative for `R1`: the `2.0.0` document
carrying the maximum score 5. -/
def wRep : Doc := { id := some "R1", resource_version := some "2.0.0", score := some 5 }

/-- Fixture: a same-id candidate whose version string `"0"` parses (to the
one-element tuple `(0,)`). -/
def wDocZero : Doc := { id := some "R", resource_version := some "0", score := some 1 }

/-- Fixture: a same-id candidate whose version string fails to parse. -/
def wDocBad : Doc := { id := some "R", resource_version := some "bad", score := some 1 }

/-- Fixture: a document with an empty-string id (falsy, dropped). -/
def wDocEmptyId : Doc := { id := some "", resource_version := some "9.9.9", score := some 7 }

/-! ## Pagination (search_resources.py lines 166-172) -/

/-- Python list slice `xs[start:stop]` with step 1 and integer bounds:
negative bounds count from the end, bounds are clipped to the list. -/
def pySlice (xs : List Doc) (start stop : Int) : List Doc :=
  let n : Int := xs.length
  let s := (if start < 0 then max 0 (n + start) else min start n).toNat
  let e := (if stop < 0 then max 0 (n + stop) else min stop n).toNat
  (xs.drop s).take (e - s)

/-- Source lines 166-172: `total_count` is taken before pagination, then
`paginated_results = sorted_resources[start_idx:end_idx]` with
`start_idx = (page - 1) * page_size` and `end_idx = start_idx + page_size`. -/
def search_pagination (sorted_resources : List Doc) (page page_size : Int) :
    List Doc × Nat :=
  let total_count := sorted_resources.length
  let start_idx := (page - 1) * page_size
  let end_idx := start_idx + page_size
  (pySlice sorted_resources start_idx end_idx, total_count)

/-! ## Response clean-up (search_resources.py lines 174-189) -/

/-- For the clean-up step a document is a Python dict from string keys to
values (rendered as strings; only key identity matters here), as an
insertion-ordered association list. -/
abbrev PyDict := List (String × String)

/-- Python `resource.pop(k, None)`: remove the key if present. -/
def dictPop (k : String) : PyDict → PyDict
  | [] => []
  | (k0, v0) :: rest => if k0 = k then dictPop k rest else (k0, v0) :: dictPop k rest

/-- Python `resource[k] = v`: replace in place when the key is present,
else append at the end. -/
def dictSet (k : String) (v : String) (d : PyDict) : PyDict :=
  if (alookup k d).isSome then aupdate k v d else d ++ [(k, v)]

/-- Source line 177-181: the Azure-Search-internal keys removed from every
returned document. -/
def keys_to_remove : List String :=
  ["@search.score", "@search.highlights", "@search.reranker_score"]

/-- Source lines 176-184 for one document: pop the three internal keys,
then attach the constant provenance tag `database = "gem5-vision"`. -/
def cleanup_doc (resource : PyDict) : PyDict :=
  dictSet "database" "gem5-vision" (keys_to_remove.foldl (fun d k => dictPop k d) resource)

/-- Source loop lines 175-184 over the returned page. -/
def cleanup_page (paginated_results : List PyDict) : List PyDict :=
  paginated_results.map cleanup_doc

/-! ## Sorting (`apply_sorting`, search_resources.py lines 361-387) -/

/-- Model of Python's `str.lower()` (ASCII case folding). -/
def pyLower (s : String) : String := ⟨s.data.map Char.toLower⟩

/-- Model of Python's `max(xs, default=dflt)` over strings: the default is
used only when the iterable is empty; ties keep the leftmost maximum. -/
def pyMax (xs : List String) (dflt : String) : String :=
  match xs with
  | [] => dflt
  | x :: rest => rest.foldl (fun a b => if a < b then b else a) x

/-- Sort key for policy `date`: `x.get("date", "")`. -/
def keyDate (x : Doc) : String := x.date.getD ""

/-- Sort key for policies `name`, `id_asc` and `id_desc`:
`x.get("id", "").lower()`. -/
def keyIdLower (x : Doc) : String := pyLower (x.id.getD "")

/-- Sort key for policy `version`:
`max(x.get("gem5_versions", ["0"]), default="0")`. -/
def keyGem5 (x : Doc) : String := pyMax (x.gem5_versions.getD ["0"]) "0"

/-- Boolean comparison used to model `sorted(xs, key=key)` (stable,
ascending). -/
def leByKey {K : Type} [LinearOrder K] (key : Doc → K) (a b : Doc) : Bool :=
  decide (key a ≤ key b)

/-- Boolean comparison used to model `sorted(xs, key=key, reverse=True)`
(stable, descending). -/
def geByKey {K : Type} [LinearOrder K] (key : Doc → K) (a b : Doc) : Bool :=
  decide (key b ≤ key a)

/-- Source `apply_sorting`: the if/elif chain over the sort parameter,
each branch a stable sort by the branch's key (`reverse=True` modelled by
the reversed comparison). -/
def apply_sorting (results : List Doc) (sort_param : String) : List Doc :=
  if sort_param = "date" then
    results.mergeSort (geByKey keyDate)
  else if sort_param = "name" ∨ sort_param = "id_asc" then
    results.mergeSort (leByKey keyIdLower)
  else if sort_param = "id_desc" then
    results.mergeSort (geByKey keyIdLower)
  else if sort_param = "version" then
    results.mergeSort (geByKey keyGem5)
  else
    results.mergeSort (geByKey getScore)

/-- Equality of the sort keys that the branch selected by `sort_param`
actually compares (used to state stability). -/
def sortKeyEq (sort_param : String) (a b : Doc) : Prop :=
  if sort_param = "date" then keyDate a = keyDate b
  else if sort_param = "name" ∨ sort_param = "id_asc" then keyIdLower a = keyIdLower b
  else if sort_param = "id_desc" then keyIdLower a = keyIdLower b
  else if sort_param = "version" then keyGem5 a = keyGem5 b
  else getScore a = getScore b

/-! ## Query translation (search_resources.py lines 106-137 and 202-243) -/

/-- The Lucene special characters escaped by `escape_lucene_query`, in the
order the source replaces them (backslash first, quote handled last and
separately in the source). -/
def lucene_special_chars : List Char :=
  ['\\', '+', '-', '&', '|', '!', '(', ')', '\x7b', '\x7d', '[', ']', '^', '~', '*', '?', ':', '/']

/-- One `escaped.replace(c, "\\" + c)` pass over the characters. -/
def replaceEscape (s : List Char) (c : Char) : List Char :=
  s.flatMap (fun x => if x = c then ['\\', c] else [x])

/-- Source `escape_lucene_query`: sequentially escape each special
character, then the double quote. -/
def escape_lucene_query (query_str : String) : String :=
  let escaped := lucene_special_chars.foldl replaceEscape query_str.data
  ⟨replaceEscape escaped '"'⟩

/-- Source lines 123-130: the per-term disjunctive clause, exactly the
concatenation the f-string produces. -/
def term_clause (escaped_term : String) : String :=
  "(id:\"" ++ escaped_term ++ "\"^10 OR id:" ++ escaped_term ++ "*^10 OR " ++
  "description:\"" ++ escaped_term ++ "\" OR description:" ++ escaped_term ++ "* OR " ++
  "category:\"" ++ escaped_term ++ "\" OR category:" ++ escaped_term ++ "* OR " ++
  "architecture:\"" ++ escaped_term ++ "\" OR architecture:" ++ escaped_term ++ "* OR " ++
  "tags:\"" ++ escaped_term ++ "\" OR tags:" ++ escaped_term ++ "* OR " ++
  "\"" ++ escaped_term ++ "\" OR " ++ escaped_term ++ "*)"

/-- Source lines 111-137: empty phrase gives the match-all sentinel with
the simple query type; otherwise split on whitespace, build a clause per
escaped term and join the clauses with `" AND "` (Lucene `full` syntax). -/
def build_search_text (contains_str : String) : String × String :=
  if contains_str ≠ "" then
    let terms := pySplitWs contains_str
    let term_clauses := terms.map (fun term => term_clause (escape_lucene_query term))
    (pyJoin " AND " term_clauses, "full")
  else ("*", "simple")

/-- The five fields the claim says a term clause spans. -/
def query_fields : List String := ["id", "description", "category", "architecture", "tags"]

/-- Written from the claim's words, for comparison with the source: per
field, an exact-phrase match and a prefix match, the id field's matches
weighted ten times. -/
def claim_field_matches (f : String) (e : String) : List String :=
  [f ++ ":\"" ++ e ++ "\"" ++ (if f = "id" then "^10" else ""),
   f ++ ":" ++ e ++ "*" ++ (if f = "id" then "^10" else "")]

/-- Written from the claim's words: a disjunctive clause spanning exactly
the five fields, nothing else. -/
def term_clause_claimed (e : String) : String :=
  "(" ++ pyJoin " OR " (query_fields.flatMap (fun f => claim_field_matches f e)) ++ ")"

/-- The claim's query translation: match-all for the empty phrase,
otherwise the conjunction of the claimed per-term clauses. -/
def build_search_text_claimed (contains_str : String) : String × String :=
  if contains_str ≠ "" then
    (pyJoin " AND "
      ((pySplitWs contains_str).map (fun t => term_clause_claimed (escape_lucene_query t))),
     "full")
  else ("*", "simple")

/-- The amended clause: the five fields' matches plus an unqualified
exact-phrase match and an unqualified prefix match (which Lucene applies
to the default searchable fields, beyond the five listed). -/
def term_clause_amended (e : String) : String :=
  "(" ++ pyJoin " OR "
    (query_fields.flatMap (fun f => claim_field_matches f e) ++
      ["\"" ++ e ++ "\"", e ++ "*"]) ++ ")"

/-- The amended query translation. -/
def build_search_text_amended (contains_str : String) : String × String :=
  if contains_str ≠ "" then
    (pyJoin " AND "
      ((pySplitWs contains_str).map (fun t => term_clause_amended (escape_lucene_query t))),
     "full")
  else ("*", "simple")

/-! ## Request sanitisation (shared/utils.py) and validation
(search_resources.py lines 36-149) -/

/-- ASCII model of the regex class `\w`. -/
def isWordChar (c : Char) : Bool := c.isAlphanum || c = '_'

/-- Model of `sanitize_id` (utils.py lines 21-28): strip, then accept only
1-100 characters drawn from word characters, dash and dot; `none` models
the Python `None` returned on failure. -/
def sanitize_id (value : String) : Option String :=
  let v := pyStrip value
  if 1 ≤ v.length ∧ v.length ≤ 100 ∧
      v.data.all (fun c => isWordChar c || c = '-' || c = '.') then
    some v
  else none

/-- The characters `sanitize_contains_str` keeps. -/
def containsAllowed (c : Char) : Bool :=
  isWordChar c || c.isWhitespace ||
  c ∈ ['-', '.', ',', ':', ';', '!', '?', '@', '#', '%', '&', '(', ')', '[', ']',
       '\x7b', '\x7d', '<', '>', '/', '\\', '=', '+', '*', '\x27', '"']

/-- Model of `sanitize_contains_str` (utils.py lines 41-47): strip, drop
disallowed characters, truncate to 200 characters. -/
def sanitize_contains_str (value : String) : String :=
  let v := pyStrip value
  ⟨(v.data.filter containsAllowed).take 200⟩

/-- Model of `sanitize_must_include` (utils.py lines 50-57): strip, keep
only word characters and `, ; - .`, truncate to 500 characters. -/
def sanitize_must_include (value : String) : String :=
  let v := pyStrip value
  ⟨(v.data.filter (fun c => isWordChar c || c ∈ [',', ';', '-', '.'])).take 500⟩

/-- The filter-relevant projection of `query_object`: the parsed
must-include clauses, field name to sanitised values.  (The dict's base
`query` and `sort` entries hold strings and are never read by
`build_odata_filter`, so this projection omits them.) -/
abbrev QueryObject := List (String × List String)

/-- Python `query_object[field] = values`: replace in place when present,
else append. -/
def qoSet (field : String) (values : List String) (qo : QueryObject) : QueryObject :=
  if (alookup field qo).isSome then aupdate field values qo else qo ++ [(field, values)]

/-- Source `build_odata_filter` (lines 246-296): one clause group per
present filter field, groups joined with `and`; scalar fields use a bare
equality for a single value and a parenthesised `or`-disjunction
otherwise; collection fields always use a parenthesised disjunction of
`any` tests.  An absent field, or a present field with an empty (falsy)
value list, contributes nothing; the result is `None` when no group was
built. -/
def build_odata_filter (query_object : QueryObject) : Option String :=
  let filters : List String := []
  let filters :=
    match alookup "category" query_object with
    | some (v :: vs) =>
      if vs = [] then filters ++ ["category eq \x27" ++ v ++ "\x27"]
      else filters ++
        ["(" ++ pyJoin " or " ((v :: vs).map (fun w => "category eq \x27" ++ w ++ "\x27")) ++ ")"]
    | _ => filters
  let filters :=
    match alookup "architecture" query_object with
    | some (v :: vs) =>
      if vs = [] then filters ++ ["architecture eq \x27" ++ v ++ "\x27"]
      else filters ++
        ["(" ++ pyJoin " or " ((v :: vs).map (fun w => "architecture eq \x27" ++ w ++ "\x27")) ++ ")"]
    | _ => filters
  let filters :=
    match alookup "tags" query_object with
    | some (v :: vs) =>
      filters ++
        ["(" ++ pyJoin " or " ((v :: vs).map (fun w => "tags/any(t: t eq \x27" ++ w ++ "\x27)")) ++ ")"]
    | _ => filters
  let filters :=
    match alookup "gem5_versions" query_object with
    | some (v :: vs) =>
      filters ++
        ["(" ++ pyJoin " or "
          ((v :: vs).map (fun w => "gem5_versions/any(v: v eq \x27" ++ w ++ "\x27)")) ++ ")"]
    | _ => filters
  if filters = [] then none else some (pyJoin " and " filters)

/-- The truthiness-and-sanitisation test `not all(values)` applies to each
`sanitize_id` result: `None` is falsy, and so would be an empty string. -/
def sanitizedOk (v : Option String) : Bool :=
  match v with
  | some s => decide (s ≠ "")
  | none => false

/-- Source lines 83-99: parse the must-include groups in order, building
up `query_object`; the first malformed group aborts with the error the
source reports. -/
def parse_must_include_groups : List String → QueryObject → Except String QueryObject
  | [], qo => Except.ok qo
  | g :: rest, qo =>
    if g = "" then parse_must_include_groups rest qo
    else
      match splitChar (fun c => c = ',') g with
      | [] => Except.error "Invalid filter format"
      | [_] => Except.error "Invalid filter format"
      | field :: v1 :: vs =>
        let values := (v1 :: vs).map sanitize_id
        if values.all sanitizedOk then
          parse_must_include_groups rest
            (qoSet field (values.map (fun v => v.getD "")) qo)
        else Except.error "Invalid filter value format"

/-- The request parameters the handler reads, as received (`none` models
an absent query parameter where the source distinguishes absence). -/
structure Params where
  contains_str : String := ""
  must_include : String := ""
  sort : Option String := none
  page : Option String := none
  page_size : Option String := none

/-- `int(req.params.get("page", 1))`: the integer default never fails. -/
def page_parse (p : Params) : Option Int :=
  match p.page with
  | none => some 1
  | some s => pyInt s

/-- `int(req.params.get("page-size", 10))`. -/
def page_size_parse (p : Params) : Option Int :=
  match p.page_size with
  | none => some 10
  | some s => pyInt s

/-- Source lines 48-55 and 77: the sort parameter is normalised only when
truthy, and the query object records `"default"` for a falsy one. -/
def sort_value (sort_param : Option String) : String :=
  match sort_param with
  | none => "default"
  | some s =>
    if s ≠ "" then
      (if s ∈ ["date", "name", "version", "id_asc", "id_desc"] then s else "default")
    else "default"

/-- Outcome of the handler up to (and excluding) the backend call: either
a terminal error response, or the fully-built backend query — reaching
the `backend` constructor is what "a call to the search backend is made"
means in this embedding. -/
inductive Phase1Result where
  | error (status : Nat) (message : String)
  | backend (search_text : String) (query_type : String) (odata_filter : Option String)
      (sort : String) (page : Int) (page_size : Int)
deriving DecidableEq, Repr

/-- Source lines 36-149: sanitise the inputs, validate pagination (400 on
a parse failure or out-of-range value, before anything else can fail),
parse the must-include groups (400 on a malformed group), then build the
OData filter and the search text for the backend call. -/
def search_resources_phase1 (p : Params) : Phase1Result :=
  let contains_str := sanitize_contains_str (pyStrip p.contains_str)
  let must_include := sanitize_must_include p.must_include
  match page_parse p, page_size_parse p with
  | some page, some page_size =>
    if page < 1 then
      Phase1Result.error 400 "Invalid pagination parameters: page must be >=1."
    else if page_size < 1 ∨ page_size > 100 then
      Phase1Result.error 400 "Invalid pagination parameters: page-size must be between 1 and 100."
    else
      match (if must_include ≠ "" then
               parse_must_include_groups (splitChar (fun c => c = ';') must_include) []
             else Except.ok []) with
      | Except.error msg => Phase1Result.error 400 msg
      | Except.ok qo =>
        let st := build_search_text contains_str
        Phase1Result.backend st.1 st.2 (build_odata_filter qo) (sort_value p.sort) page page_size
  | _, _ => Phase1Result.error 400 "Invalid pagination parameters"

/-- The claim's notion of invalid pagination: non-integer `page` or
`page-size`, `page < 1`, or `page-size` outside `1..100`. -/
def pagination_invalid (p : Params) : Bool :=
  match page_parse p, page_size_parse p with
  | some page, some page_size => page < 1 || page_size < 1 || page_size > 100
  | _, _ => true

/-- The claim's notion of a malformed must-include group: nonempty, and
either fewer than two comma-separated tokens or some value failing
identifier sanitisation. -/
def group_malformed (g : String) : Bool :=
  g ≠ "" &&
  (match splitChar (fun c => c = ',') g with
   | [] => true
   | [_] => true
   | _ :: vs => ! (vs.map sanitize_id).all sanitizedOk)

/-- The claim's notion of a malformed must-include filter, measured on the
sanitised parameter the parser actually sees. -/
def must_include_malformed (p : Params) : Bool :=
  let mi := sanitize_must_include p.must_include
  mi ≠ "" && (splitChar (fun c => c = ';') mi).any group_malformed

/-! ## Order lemmas for the version comparison -/

theorem vlt_irrefl (a : List Int) : vlt a a = false := by
  induction a with
  | nil => rfl
  | cons x xs ih => simp [vlt, ih]

theorem vlt_trans : ∀ {a b c : List Int}, vlt a b = true → vlt b c = true → vlt a c = true
  | [], [], _, h, _ => by simp [vlt] at h
  | [], _ :: _, [], _, h => by simp [vlt] at h
  | [], _ :: _, _ :: _, _, _ => by simp [vlt]
  | _ :: _, [], _, h, _ => by simp [vlt] at h
  | _ :: _, _ :: _, [], _, h => by simp [vlt] at h
  | x :: xs, y :: ys, z :: zs, h1, h2 => by
    simp only [vlt, Bool.or_eq_true, Bool.and_eq_true, beq_iff_eq, decide_eq_true_eq] at h1 h2 ⊢
    rcases h1 with h1 | ⟨rfl, h1⟩
    · rcases h2 with h2 | ⟨rfl, h2⟩
      · exact Or.inl (lt_trans h1 h2)
      · exact Or.inl h1
    · rcases h2 with h2 | ⟨rfl, h2⟩
      · exact Or.inl h2
      · exact Or.inr ⟨rfl, vlt_trans h1 h2⟩

theorem vlt_connex : ∀ {a b : List Int}, vlt a b = false → vlt b a = false → a = b
  | [], [], _, _ => rfl
  | [], _ :: _, h, _ => by simp [vlt] at h
  | _ :: _, [], _, h => by simp [vlt] at h
  | x :: xs, y :: ys, h1, h2 => by
    simp only [vlt, Bool.or_eq_false_iff, Bool.and_eq_false_iff, beq_eq_false_iff_ne,
      ne_eq, decide_eq_false_iff_not, not_lt] at h1 h2
    obtain ⟨hxy, h1⟩ := h1
    obtain ⟨hyx, h2⟩ := h2
    have hxy' : x = y := le_antisymm hyx hxy
    subst hxy'
    rcases h1 with h1 | h1
    · exact absurd rfl h1
    · rcases h2 with h2 | h2
      · exact absurd rfl h2
      · exact congrArg (x :: ·) (vlt_connex h1 h2)

theorem vlt_asymm {a b : List Int} (h : vlt a b = true) : vlt b a = false := by
  by_contra hc
  have hba : vlt b a = true := by
    cases hba : vlt b a
    · exact absurd hba hc
    · rfl
  have := vlt_trans h hba
  rw [vlt_irrefl] at this
  exact Bool.false_ne_true this

theorem vge_trans {a b c : List Int} (h1 : vlt a b = false) (h2 : vlt b c = false) :
    vlt a c = false := by
  cases hac : vlt a c
  · rfl
  · cases hba : vlt b a
    · have hab : a = b := vlt_connex h1 hba
      subst hab
      exact absurd hac (by simp [h2])
    · have := vlt_trans hba hac
      exact absurd this (by simp [h2])

theorem vge_vlt_trans {a b c : List Int} (h1 : vlt a b = false) (h2 : vlt a c = true) :
    vlt b c = true := by
  cases hba : vlt b a
  · have : a = b := vlt_connex h1 hba
    subst this
    exact h2
  · exact vlt_trans hba h2

/-! ## Association-list lemmas -/

theorem alookup_append_left {β : Type} {k : String} {m1 : List (String × β)}
    (m2 : List (String × β)) {v : β} (h : alookup k m1 = some v) :
    alookup k (m1 ++ m2) = some v := by
  induction m1 with
  | nil => simp [alookup] at h
  | cons e rest ih =>
    obtain ⟨k', v'⟩ := e
    by_cases hk : k' = k
    · subst hk
      simp [alookup] at h ⊢
      exact h
    · simp [alookup, hk] at h ⊢
      exact ih h

theorem alookup_append_right {β : Type} {k : String} {m1 : List (String × β)}
    (m2 : List (String × β)) (h : alookup k m1 = none) :
    alookup k (m1 ++ m2) = alookup k m2 := by
  induction m1 with
  | nil => simp
  | cons e rest ih =>
    obtain ⟨k', v'⟩ := e
    by_cases hk : k' = k
    · subst hk
      simp [alookup] at h
    · simp [alookup, hk] at h ⊢
      exact ih h

theorem alookup_aupdate_self {β : Type} {k : String} (v : β) {m : List (String × β)}
    {v0 : β} (h : alookup k m = some v0) : alookup k (aupdate k v m) = some v := by
  induction m with
  | nil => simp [alookup] at h
  | cons e rest ih =>
    obtain ⟨k', v'⟩ := e
    by_cases hk : k' = k
    · subst hk
      simp [alookup, aupdate]
    · simp [alookup, aupdate, hk] at h ⊢
      exact ih h

theorem alookup_aupdate_ne {β : Type} {k k' : String} (hne : k ≠ k') (v : β)
    (m : List (String × β)) : alookup k' (aupdate k v m) = alookup k' m := by
  induction m with
  | nil => rfl
  | cons e rest ih =>
    obtain ⟨k0, v0⟩ := e
    by_cases hk : k0 = k
    · subst hk
      have : ¬ (k0 = k') := hne
      simp [alookup, aupdate, this]
    · simp only [aupdate, if_neg hk]
      by_cases hk' : k0 = k'
      · subst hk'
        simp [alookup]
      · simp [alookup, hk', ih]

theorem aupdate_keys {β : Type} (k : String) (v : β) (m : List (String × β)) :
    (aupdate k v m).map Prod.fst = m.map Prod.fst := by
  induction m with
  | nil => rfl
  | cons e rest ih =>
    obtain ⟨k0, v0⟩ := e
    by_cases hk : k0 = k
    · subst hk
      simp [aupdate]
    · simp [aupdate, hk, ih]

theorem alookup_eq_none_iff {β : Type} {k : String} {m : List (String × β)} :
    alookup k m = none ↔ k ∉ m.map Prod.fst := by
  induction m with
  | nil => simp [alookup]
  | cons e rest ih =>
    obtain ⟨k0, v0⟩ := e
    by_cases hk : k0 = k
    · subst hk
      simp [alookup]
    · simp only [alookup, if_neg hk, List.map_cons, List.mem_cons]
      constructor
      · intro h hc
        rcases hc with hc | hc
        · exact hk hc.symm
        · exact (ih.mp h) hc
      · intro h
        exact ih.mpr (fun hc => h (Or.inr hc))

theorem mem_of_alookup {β : Type} {k : String} {m : List (String × β)} {v : β}
    (h : alookup k m = some v) : (k, v) ∈ m := by
  induction m with
  | nil => simp [alookup] at h
  | cons e rest ih =>
    obtain ⟨k0, v0⟩ := e
    by_cases hk : k0 = k
    · subst hk
      simp [alookup] at h
      subst h
      exact List.mem_cons_self _ _
    · simp [alookup, hk] at h
      exact List.mem_cons_of_mem _ (ih h)

theorem alookup_of_mem_nodup {β : Type} {k : String} {m : List (String × β)} {v : β}
    (hnd : (m.map Prod.fst).Nodup) (h : (k, v) ∈ m) : alookup k m = some v := by
  induction m with
  | nil => simp at h
  | cons e rest ih =>
    obtain ⟨k0, v0⟩ := e
    simp only [List.map_cons, List.nodup_cons] at hnd
    rcases List.mem_cons.mp h with h | h
    · obtain ⟨hk, hv⟩ := Prod.mk.injEq .. ▸ h
      subst hk
      subst hv
      simp [alookup]
    · by_cases hk : k0 = k
      · subst hk
        exact absurd (List.mem_map.mpr ⟨(k0, v), h, rfl⟩) hnd.1
      · simp [alookup, hk]
        exact ih hnd.2 h


theorem klv_step_other (st : KLVState) (d : Doc) (k : String) (hid : d.id ≠ some k) :
    alookup k (klv_step st d).1 = alookup k st.1 ∧
    alookup k (klv_step st d).2 = alookup k st.2 := by
  unfold klv_step
  cases hdid : d.id with
  | none => exact ⟨rfl, rfl⟩
  | some rid =>
    by_cases hrid : rid = ""
    · simp [hrid]
    · simp only [if_neg hrid]
      have hrk : rid ≠ k := fun hc => hid (by rw [hdid, hc])
      constructor
      · cases hst : alookup rid st.1 with
        | none =>
          simp only [hst]
          cases h1 : alookup k st.1 with
          | none =>
            rw [alookup_append_right _ h1]
            simp [alookup, hrk]
          | some v => exact alookup_append_left _ h1
        | some e =>
          simp only [hst]
          by_cases hv : vlt (getVersion e) (getVersion d)
          · simp only [hv, if_true]
            exact alookup_aupdate_ne hrk d st.1
          · simp [hv]
      · cases hst : alookup rid st.2 with
        | none =>
          simp only [hst]
          cases h1 : alookup k st.2 with
          | none =>
            rw [alookup_append_right _ h1]
            simp [alookup, hrk]
          | some v => exact alookup_append_left _ h1
        | some s =>
          simp only [hst]
          exact alookup_aupdate_ne hrk _ st.2

theorem klv_step_same_latest (st : KLVState) (d : Doc) (k : String) (hk : k ≠ "")
    (hid : d.id = some k) :
    alookup k (klv_step st d).1 =
      (match alookup k st.1 with
       | none => some d
       | some e => if vlt (getVersion e) (getVersion d) then some d else some e) := by
  unfold klv_step
  rw [hid]
  simp only [if_neg hk]
  cases hst : alookup k st.1 with
  | none =>
    simp only [hst]
    rw [alookup_append_right _ hst]
    simp [alookup]
  | some e =>
    simp only [hst]
    by_cases hv : vlt (getVersion e) (getVersion d)
    · simp only [hv, if_true]
      exact alookup_aupdate_self d hst
    · simp [hv, hst]

theorem klv_step_same_scores (st : KLVState) (d : Doc) (k : String) (hk : k ≠ "")
    (hid : d.id = some k) :
    alookup k (klv_step st d).2 =
      (match alookup k st.2 with
       | none => some (getScore d)
       | some s => some (max s (getScore d))) := by
  unfold klv_step
  rw [hid]
  simp only [if_neg hk]
  cases hst : alookup k st.2 with
  | none =>
    simp only [hst]
    rw [alookup_append_right _ hst]
    simp [alookup]
  | some s =>
    simp only [hst]
    exact alookup_aupdate_self _ hst

theorem sameId_cons_pos {k : String} {d : Doc} (rest : List Doc) (hid : d.id = some k) :
    sameId k (d :: rest) = d :: sameId k rest := by
  simp [sameId, List.filter_cons, hid]

theorem sameId_cons_neg {k : String} {d : Doc} (rest : List Doc) (hid : d.id ≠ some k) :
    sameId k (d :: rest) = sameId k rest := by
  simp [sameId, List.filter_cons, hid]

theorem klv_fold_latest_lookup (l : List Doc) (st : KLVState) (k : String) (hk : k ≠ "") :
    alookup k (l.foldl klv_step st).1 = bestDocAcc (alookup k st.1) (sameId k l) := by
  induction l generalizing st with
  | nil => rfl
  | cons d rest ih =>
    rw [List.foldl_cons, ih (klv_step st d)]
    by_cases hid : d.id = some k
    · rw [sameId_cons_pos rest hid, klv_step_same_latest st d k hk hid]
      rfl
    · rw [sameId_cons_neg rest hid, (klv_step_other st d k hid).1]

theorem klv_fold_scores_lookup (l : List Doc) (st : KLVState) (k : String) (hk : k ≠ "") :
    alookup k (l.foldl klv_step st).2 = maxScoreAcc (alookup k st.2) (sameId k l) := by
  induction l generalizing st with
  | nil => rfl
  | cons d rest ih =>
    rw [List.foldl_cons, ih (klv_step st d)]
    by_cases hid : d.id = some k
    · rw [sameId_cons_pos rest hid, klv_step_same_scores st d k hk hid]
      rfl
    · rw [sameId_cons_neg rest hid, (klv_step_other st d k hid).2]

/-! ## Properties of the per-id accumulators -/

theorem bestDocAcc_isSome (l : List Doc) : ∀ (e : Doc), ∃ d, bestDocAcc (some e) l = some d := by
  induction l with
  | nil => exact fun e => ⟨e, rfl⟩
  | cons x rest ih =>
    intro e
    show ∃ d, bestDocAcc (if vlt (getVersion e) (getVersion x) then some x else some e) rest = some d
    by_cases hv : vlt (getVersion e) (getVersion x)
    · simpa [hv] using ih x
    · simpa [hv] using ih e

theorem bestDocAcc_mem {l : List Doc} : ∀ {e d : Doc}, bestDocAcc (some e) l = some d → d = e ∨ d ∈ l := by
  induction l with
  | nil =>
    intro e d h
    simp [bestDocAcc] at h
    exact Or.inl h.symm
  | cons x rest ih =>
    intro e d h
    replace h : bestDocAcc (if vlt (getVersion e) (getVersion x) then some x else some e) rest = some d := h
    by_cases hv : vlt (getVersion e) (getVersion x)
    · rw [if_pos hv] at h
      rcases ih h with h | h
      · exact Or.inr (h ▸ List.mem_cons_self x rest)
      · exact Or.inr (List.mem_cons_of_mem x h)
    · rw [if_neg hv] at h
      rcases ih h with h | h
      · exact Or.inl h
      · exact Or.inr (List.mem_cons_of_mem x h)

theorem vlt_false_of_ge_gt {d e x : List Int} (h1 : vlt d x = false) (h2 : vlt e x = true) :
    vlt d e = false := by
  cases hde : vlt d e
  · rfl
  · exact absurd (vlt_trans hde h2) (by simp [h1])

theorem bestDocAcc_max {l : List Doc} :
    ∀ {e d : Doc}, bestDocAcc (some e) l = some d →
      vlt (getVersion d) (getVersion e) = false ∧
      ∀ c ∈ l, vlt (getVersion d) (getVersion c) = false := by
  induction l with
  | nil =>
    intro e d h
    simp [bestDocAcc] at h
    subst h
    exact ⟨vlt_irrefl _, by simp⟩
  | cons x rest ih =>
    intro e d h
    replace h : bestDocAcc (if vlt (getVersion e) (getVersion x) then some x else some e) rest = some d := h
    by_cases hv : vlt (getVersion e) (getVersion x)
    · rw [if_pos hv] at h
      obtain ⟨hacc, hrest⟩ := ih h
      refine ⟨vlt_false_of_ge_gt hacc hv, ?_⟩
      intro c hc
      rcases List.mem_cons.mp hc with hc | hc
      · exact hc ▸ hacc
      · exact hrest c hc
    · rw [if_neg hv] at h
      obtain ⟨hacc, hrest⟩ := ih h
      refine ⟨hacc, ?_⟩
      intro c hc
      rcases List.mem_cons.mp hc with hc | hc
      · exact hc ▸ vge_trans hacc (by simpa using hv)
      · exact hrest c hc

theorem bestDocAcc_first {l : List Doc} :
    ∀ {e d : Doc}, bestDocAcc (some e) l = some d →
      d = e ∨ ∃ l1 l2, l = l1 ++ d :: l2 ∧ vlt (getVersion e) (getVersion d) = true ∧
        ∀ c ∈ l1, vlt (getVersion c) (getVersion d) = true := by
  induction l with
  | nil =>
    intro e d h
    simp [bestDocAcc] at h
    exact Or.inl h.symm
  | cons x rest ih =>
    intro e d h
    replace h : bestDocAcc (if vlt (getVersion e) (getVersion x) then some x else some e) rest = some d := h
    by_cases hv : vlt (getVersion e) (getVersion x)
    · rw [if_pos hv] at h
      rcases ih h with h | ⟨r1, r2, hsplit, hed, hall⟩
      · subst h
        exact Or.inr ⟨[], rest, rfl, hv, by simp⟩
      · refine Or.inr ⟨x :: r1, r2, by simp [hsplit], vlt_trans hv hed, ?_⟩
        intro c hc
        rcases List.mem_cons.mp hc with hc | hc
        · exact hc ▸ hed
        · exact hall c hc
    · rw [if_neg hv] at h
      rcases ih h with h | ⟨r1, r2, hsplit, hed, hall⟩
      · exact Or.inl h
      · refine Or.inr ⟨x :: r1, r2, by simp [hsplit], hed, ?_⟩
        intro c hc
        rcases List.mem_cons.mp hc with hc | hc
        · exact hc ▸ vge_vlt_trans (by simpa using hv) hed
        · exact hall c hc

theorem maxScoreAcc_isSome (l : List Doc) : ∀ (s : Int), ∃ m, maxScoreAcc (some s) l = some m := by
  induction l with
  | nil => exact fun s => ⟨s, rfl⟩
  | cons x rest ih => exact fun s => ih (max s (getScore x))

theorem maxScoreAcc_max {l : List Doc} :
    ∀ {s m : Int}, maxScoreAcc (some s) l = some m →
      (m = s ∨ ∃ c ∈ l, getScore c = m) ∧ s ≤ m ∧ ∀ c ∈ l, getScore c ≤ m := by
  induction l with
  | nil =>
    intro s m h
    simp [maxScoreAcc] at h
    subst h
    exact ⟨Or.inl rfl, le_refl _, by simp⟩
  | cons x rest ih =>
    intro s m h
    replace h : maxScoreAcc (some (max s (getScore x))) rest = some m := h
    obtain ⟨hmem, hle, hall⟩ := ih h
    refine ⟨?_, le_trans (le_max_left _ _) hle, ?_⟩
    · rcases hmem with hm | ⟨c, hc, hcm⟩
      · rcases max_choice s (getScore x) with hmax | hmax
        · exact Or.inl (hm.trans hmax)
        · exact Or.inr ⟨x, List.mem_cons_self x rest, by rw [← hmax, ← hm]⟩
      · exact Or.inr ⟨c, List.mem_cons_of_mem x hc, hcm⟩
    · intro c hc
      rcases List.mem_cons.mp hc with hc | hc
      · exact hc ▸ le_trans (le_max_right _ _) hle
      · exact hall c hc

/-! ## Key invariants of the consolidation fold -/

theorem klv_fold_latest_keys (l : List Doc) (st : KLVState)
    (h : (st.1.map Prod.fst).Nodup ∧ ∀ k ∈ st.1.map Prod.fst, k ≠ "") :
    ((l.foldl klv_step st).1.map Prod.fst).Nodup ∧
      ∀ k ∈ (l.foldl klv_step st).1.map Prod.fst, k ≠ "" := by
  induction l generalizing st with
  | nil => exact h
  | cons d rest ih =>
    rw [List.foldl_cons]
    refine ih (klv_step st d) ?_
    unfold klv_step
    cases d.id with
    | none => exact h
    | some rid =>
      by_cases hrid : rid = ""
      · simpa [hrid] using h
      · simp only [if_neg hrid]
        cases hst : alookup rid st.1 with
        | none =>
          simp only [hst, List.map_append]
          constructor
          · rw [List.nodup_append]
            refine ⟨h.1, List.nodup_singleton rid, ?_⟩
            intro a ha hb
            simp only [List.map_cons, List.map_nil, List.mem_singleton] at hb
            subst hb
            exact (alookup_eq_none_iff.mp hst) ha
          · intro k hk
            rcases List.mem_append.mp hk with hk | hk
            · exact h.2 k hk
            · simp only [List.map_cons, List.map_nil, List.mem_singleton] at hk
              exact hk ▸ hrid
        | some e =>
          simp only [hst]
          by_cases hv : vlt (getVersion e) (getVersion d)
          · simp only [hv, if_true, aupdate_keys]
            exact h
          · simpa [hv] using h

/-! ## Characterisation of the consolidated output -/

theorem mem_sameId {k : String} {results : List Doc} {d : Doc} :
    d ∈ sameId k results ↔ d ∈ results ∧ d.id = some k := by
  simp [sameId, List.mem_filter]

theorem klv_mem {results : List Doc} {r : Doc} (hr : r ∈ keep_latest_versions results) :
    ∃ k d m, r = { d with score := some m } ∧ d.id = some k ∧ k ≠ "" ∧
      bestDocAcc none (sameId k results) = some d ∧
      maxScoreAcc none (sameId k results) = some m := by
  simp only [keep_latest_versions, List.mem_map] at hr
  obtain ⟨e, he, hfe⟩ := hr
  obtain ⟨k, d⟩ := e
  have hkeys := klv_fold_latest_keys results ([], []) ⟨List.nodup_nil, by simp⟩
  have hk : k ≠ "" := hkeys.2 k (List.mem_map.mpr ⟨(k, d), he, rfl⟩)
  have hlook : alookup k (results.foldl klv_step ([], [])).1 = some d :=
    alookup_of_mem_nodup hkeys.1 he
  rw [klv_fold_latest_lookup results ([], []) k hk] at hlook
  have hbest : bestDocAcc none (sameId k results) = some d := hlook
  obtain ⟨x, t, hxt⟩ : ∃ x t, sameId k results = x :: t := by
    cases hsl : sameId k results with
    | nil => rw [hsl] at hbest; simp [bestDocAcc] at hbest
    | cons x t => exact ⟨x, t, rfl⟩
  have hscore : alookup k (results.foldl klv_step ([], [])).2 =
      maxScoreAcc none (sameId k results) :=
    klv_fold_scores_lookup results ([], []) k hk
  obtain ⟨m, hm⟩ : ∃ m, maxScoreAcc none (sameId k results) = some m := by
    rw [hxt]
    exact maxScoreAcc_isSome t (getScore x)
  have hdid : d.id = some k := by
    have hd : d ∈ sameId k results := by
      rw [hxt] at hbest ⊢
      rcases bestDocAcc_mem (l := t) hbest with h | h
      · exact h ▸ List.mem_cons_self x t
      · exact List.mem_cons_of_mem x h
    exact (mem_sameId.mp hd).2
  refine ⟨k, d, m, ?_, hdid, hk, hbest, hm⟩
  rw [← hfe]
  rw [hscore, hm]
  simp

theorem klv_rep_version {results : List Doc} {k : String} {d : Doc}
    (hbest : bestDocAcc none (sameId k results) = some d) :
    ∀ c ∈ results, c.id = some k → vlt (getVersion d) (getVersion c) = false := by
  intro c hc hcid
  have hcs : c ∈ sameId k results := mem_sameId.mpr ⟨hc, hcid⟩
  cases hsl : sameId k results with
  | nil => rw [hsl] at hcs; simp at hcs
  | cons x t =>
    rw [hsl] at hbest hcs
    have hb : bestDocAcc (some x) t = some d := hbest
    obtain ⟨hacc, hrest⟩ := bestDocAcc_max hb
    rcases List.mem_cons.mp hcs with h | h
    · exact h ▸ hacc
    · exact hrest c h

theorem klv_rep_first {results : List Doc} {k : String} {d : Doc}
    (hbest : bestDocAcc none (sameId k results) = some d) :
    ∃ l1 l2, sameId k results = l1 ++ d :: l2 ∧
      ∀ b ∈ l1, vlt (getVersion b) (getVersion d) = true := by
  cases hsl : sameId k results with
  | nil => rw [hsl] at hbest; simp [bestDocAcc] at hbest
  | cons x t =>
    rw [hsl] at hbest
    have hb : bestDocAcc (some x) t = some d := hbest
    rcases bestDocAcc_first hb with h | ⟨r1, r2, hsplit, hxd, hall⟩
    · exact ⟨[], t, by simp [h], by simp⟩
    · refine ⟨x :: r1, r2, by simp [hsplit], ?_⟩
      intro b hb'
      rcases List.mem_cons.mp hb' with hb' | hb'
      · exact hb' ▸ hxd
      · exact hall b hb'

theorem klv_entry_ids {results : List Doc} :
    ∀ e ∈ (results.foldl klv_step ([], [])).1, (e.2 : Doc).id = some e.1 := by
  intro e he
  obtain ⟨k, d⟩ := e
  have hkeys := klv_fold_latest_keys results ([], []) ⟨List.nodup_nil, by simp⟩
  have hk : k ≠ "" := hkeys.2 k (List.mem_map.mpr ⟨(k, d), he, rfl⟩)
  have hlook : alookup k (results.foldl klv_step ([], [])).1 = some d :=
    alookup_of_mem_nodup hkeys.1 he
  rw [klv_fold_latest_lookup results ([], []) k hk] at hlook
  have hd : d ∈ sameId k results := by
    cases hsl : sameId k results with
    | nil =>
      rw [hsl] at hlook
      simp [bestDocAcc, alookup] at hlook
    | cons x t =>
      rw [hsl] at hlook
      have hb : bestDocAcc (some x) t = some d := hlook
      rcases bestDocAcc_mem hb with h | h
      · exact h ▸ List.mem_cons_self x t
      · exact List.mem_cons_of_mem x h
  exact (mem_sameId.mp hd).2

theorem klv_ids_pairwise (results : List Doc) :
    (keep_latest_versions results).Pairwise (fun r s => r.id ≠ s.id) := by
  unfold keep_latest_versions
  rw [List.pairwise_map]
  have hkeys := klv_fold_latest_keys results ([], []) ⟨List.nodup_nil, by simp⟩
  have hnd : (results.foldl klv_step ([], [])).1.Pairwise (fun e1 e2 => e1.1 ≠ e2.1) :=
    List.pairwise_map.mp hkeys.1
  refine List.Pairwise.imp_of_mem ?_ hnd
  intro e1 e2 h1 h2 hne
  have hid1 := klv_entry_ids e1 h1
  have hid2 := klv_entry_ids e2 h2
  simp only [hid1, hid2]
  intro hc
  exact hne (Option.some.injEq _ _ ▸ hc)

/-! ## Claim C1: uniqueness, maximality and first-seen tie-break -/

/-- C1: for every input candidate list, the consolidated output of
`keep_latest_versions` contains at most one document per logical id
(output ids are pairwise distinct); each output document's parsed
`resource_version` is greater than or equal to that of every same-id
candidate; and the output document coincides, up to the score overwrite,
with the first same-id candidate that attains this maximal version — all
strictly earlier same-id candidates have strictly smaller parsed versions,
so on exact version ties the first-seen document remains the
representative. -/
theorem keep_latest_versions_unique_max_first (results : List Doc) :
    (keep_latest_versions results).Pairwise (fun r s => r.id ≠ s.id) ∧
    ∀ r ∈ keep_latest_versions results, ∃ k, r.id = some k ∧ k ≠ "" ∧
      (∀ c ∈ results, c.id = some k → vlt (getVersion r) (getVersion c) = false) ∧
      ∃ (c : Doc) (l1 l2 : List Doc), sameId k results = l1 ++ c :: l2 ∧
        r = { c with score := r.score } ∧
        ∀ b ∈ l1, vlt (getVersion b) (getVersion c) = true := by
  refine ⟨klv_ids_pairwise results, ?_⟩
  intro r hr
  obtain ⟨k, d, m, hrd, hdid, hk, hbest, hm⟩ := klv_mem hr
  refine ⟨k, ?_, hk, ?_, ?_⟩
  · rw [hrd]
    exact hdid
  · intro c hc hcid
    have hvr : getVersion r = getVersion d := by rw [hrd]; rfl
    rw [hvr]
    exact klv_rep_version hbest c hc hcid
  · obtain ⟨l1, l2, hsplit, hall⟩ := klv_rep_first hbest
    refine ⟨d, l1, l2, hsplit, ?_, hall⟩
    rw [hrd]

/-- Witness for C1 at the spec's own example: two `R1` candidates with
versions `1.0.0` (score 5) and `2.0.0` (score 2); the representative is
the `2.0.0` document. -/
theorem keep_latest_versions_unique_max_first_witness :
    ∃ k, wRep.id = some k ∧ k ≠ "" ∧
      (∀ c ∈ [wDocA, wDocB], c.id = some k → vlt (getVersion wRep) (getVersion c) = false) ∧
      ∃ (c : Doc) (l1 l2 : List Doc), sameId k [wDocA, wDocB] = l1 ++ c :: l2 ∧
        wRep = { c with score := wRep.score } ∧
        ∀ b ∈ l1, vlt (getVersion b) (getVersion c) = true :=
  (keep_latest_versions_unique_max_first [wDocA, wDocB]).2 wRep (by decide)

/-! ## Claim C2: the representative carries the maximum score -/

/-- C2: for every input candidate list and every document of the
consolidated output, the output score equals the maximum of
`doc.get("score", 0)` over all candidates sharing the document's logical
id — the maximum is attained by some same-id candidate and bounds every
same-id candidate, even when the representative document itself is not
the highest-scoring version. -/
theorem keep_latest_versions_score_is_max (results : List Doc) :
    ∀ r ∈ keep_latest_versions results, ∃ k m, r.id = some k ∧ r.score = some m ∧
      (∃ c ∈ results, c.id = some k ∧ getScore c = m) ∧
      ∀ c ∈ results, c.id = some k → getScore c ≤ m := by
  intro r hr
  obtain ⟨k, d, m, hrd, hdid, hk, hbest, hm⟩ := klv_mem hr
  refine ⟨k, m, by rw [hrd]; exact hdid, by rw [hrd], ?_, ?_⟩
  · cases hsl : sameId k results with
    | nil =>
      rw [hsl] at hbest
      simp [bestDocAcc] at hbest
    | cons x t =>
      rw [hsl] at hm
      have hmx : maxScoreAcc (some (getScore x)) t = some m := hm
      obtain ⟨hmem, hxle, hall⟩ := maxScoreAcc_max hmx
      rcases hmem with hmx' | ⟨c, hc, hcm⟩
      · have hx : x ∈ sameId k results := hsl ▸ List.mem_cons_self x t
        obtain ⟨hx1, hx2⟩ := mem_sameId.mp hx
        exact ⟨x, hx1, hx2, hmx'.symm⟩
      · have hc' : c ∈ sameId k results := hsl ▸ List.mem_cons_of_mem x hc
        obtain ⟨hc1, hc2⟩ := mem_sameId.mp hc'
        exact ⟨c, hc1, hc2, hcm⟩
  · intro c hc hcid
    have hcs : c ∈ sameId k results := mem_sameId.mpr ⟨hc, hcid⟩
    cases hsl : sameId k results with
    | nil =>
      rw [hsl] at hcs
      simp at hcs
    | cons x t =>
      rw [hsl] at hm hcs
      have hmx : maxScoreAcc (some (getScore x)) t = some m := hm
      obtain ⟨hmem, hxle, hall⟩ := maxScoreAcc_max hmx
      rcases List.mem_cons.mp hcs with h | h
      · exact h ▸ hxle
      · exact hall c h

/-- Witness for C2 at the spec's own example: the `R1` representative is
the low-scoring `2.0.0` document, yet its output score is the maximum 5. -/
theorem keep_latest_versions_score_is_max_witness :
    ∃ k m, wRep.id = some k ∧ wRep.score = some m ∧
      (∃ c ∈ [wDocA, wDocB], c.id = some k ∧ getScore c = m) ∧
      ∀ c ∈ [wDocA, wDocB], c.id = some k → getScore c ≤ m :=
  keep_latest_versions_score_is_max [wDocA, wDocB] wRep (by decide)

/-! ## Claim C9: falsy ids are dropped entirely -/

theorem klv_step_falsy (st : KLVState) (d : Doc) (hd : falsyId d = true) :
    klv_step st d = st := by
  unfold klv_step
  unfold falsyId at hd
  cases hdid : d.id with
  | none => rfl
  | some s =>
    rw [hdid] at hd
    simp only [beq_iff_eq] at hd
    simp [hd]

theorem klv_fold_filter_falsy (l : List Doc) (st : KLVState) :
    l.foldl klv_step st = (l.filter (fun d => ! falsyId d)).foldl klv_step st := by
  induction l generalizing st with
  | nil => rfl
  | cons d rest ih =>
    rw [List.foldl_cons, List.filter_cons]
    cases hd : falsyId d with
    | true =>
      rw [klv_step_falsy st d hd]
      simpa [hd] using ih st
    | false =>
      simpa [hd] using ih (klv_step st d)

/-- C9: consolidation drops every document whose id is falsy — absent or
the empty string.  The consolidated output over any candidate list equals
the output over the candidates with falsy-id documents removed (so a
falsy-id document contributes neither a representative nor a score to any
id), and no output document has a falsy id. -/
theorem keep_latest_versions_drops_falsy_ids (results : List Doc) :
    keep_latest_versions results =
      keep_latest_versions (results.filter (fun d => ! falsyId d)) ∧
    ∀ r ∈ keep_latest_versions results, falsyId r = false := by
  constructor
  · unfold keep_latest_versions
    rw [klv_fold_filter_falsy results ([], [])]
  · intro r hr
    obtain ⟨k, d, m, hrd, hdid, hk, _, _⟩ := klv_mem hr
    rw [hrd]
    unfold falsyId
    simp only [hdid]
    exact beq_eq_false_iff_ne.mpr hk

/-- Witness for C9: a document with id `""` and the largest version and
score in the list leaves no trace in the consolidated output, and the
surviving representative has a non-falsy id. -/
theorem keep_latest_versions_drops_falsy_ids_witness :
    keep_latest_versions [wDocEmptyId, wDocA, wDocB] =
      keep_latest_versions ([wDocEmptyId, wDocA, wDocB].filter (fun d => ! falsyId d)) ∧
    falsyId wRep = false :=
  ⟨(keep_latest_versions_drops_falsy_ids [wDocEmptyId, wDocA, wDocB]).1,
   (keep_latest_versions_drops_falsy_ids [wDocEmptyId, wDocA, wDocB]).2 wRep (by decide)⟩

/-! ## Claim C3: unparseable versions -/

/-- Counterexample to C3 as stated: the claim says a document with an
unparseable `resource_version` is never selected as representative over a
same-id candidate whose version string parses successfully.  But `"0"`
parses to the one-element tuple `(0,)`, which compares strictly below the
`(0, 0, 0)` fallback assigned to the unparseable string `"bad"`, so the
unparseable document wins consolidation. -/
theorem parse_version_unparseable_counterexample :
    parses "0" = true ∧ parses "bad" = false ∧
    (keep_latest_versions [wDocZero, wDocBad]).map Doc.resource_version = [some "bad"] := by
  decide

/-- C3 amended: `parse_version` maps any version string that fails to
parse as dot-separated integers to `(0, 0, 0)`, and during consolidation a
document with an unparseable `resource_version` is never selected as
representative when some same-id candidate's parsed version is strictly
greater than `(0, 0, 0)` (it can still beat parseable versions whose
tuples compare at or below `(0, 0, 0)`, such as `"0"`). -/
theorem parse_version_unparseable_amended (results : List Doc) :
    (∀ s, parses s = false → parse_version s = [0, 0, 0]) ∧
    ∀ r ∈ keep_latest_versions results, ∀ k, r.id = some k →
      (∃ c ∈ results, c.id = some k ∧ vlt [0, 0, 0] (getVersion c) = true) →
      parses (r.resource_version.getD "0.0.0") = true := by
  constructor
  · intro s hs
    unfold parses at hs
    unfold parse_version
    cases h : try_parse_version s with
    | none => rfl
    | some t =>
      rw [h] at hs
      simp at hs
  · intro r hr k hkid hex
    obtain ⟨c, hc, hcid, hcv⟩ := hex
    obtain ⟨k', d, m, hrd, hdid, hk', hbest, hm⟩ := klv_mem hr
    have hkk : k' = k := by
      rw [hrd] at hkid
      have : d.id = some k := hkid
      rw [hdid] at this
      exact Option.some.inj this
    subst hkk
    have hge : vlt (getVersion r) (getVersion c) = false := by
      have hvr : getVersion r = getVersion d := by rw [hrd]; rfl
      rw [hvr]
      exact klv_rep_version hbest c hc hcid
    have hgt : vlt [0, 0, 0] (getVersion r) = true := by
      cases h0 : vlt [0, 0, 0] (getVersion r) with
      | true => rfl
      | false =>
        cases hro : vlt (getVersion r) [0, 0, 0] with
        | false =>
          have heq : getVersion r = [0, 0, 0] := vlt_connex hro h0
          rw [heq] at hge
          rw [hge] at hcv
          exact hcv
        | true =>
          have := vlt_trans hro hcv
          rw [hge] at this
          exact this
    cases hp : parses (r.resource_version.getD "0.0.0") with
    | true => rfl
    | false =>
      have hver : getVersion r = [0, 0, 0] := by
        unfold getVersion parse_version
        unfold parses at hp
        cases h : try_parse_version (r.resource_version.getD "0.0.0") with
        | none => rfl
        | some t =>
          rw [h] at hp
          simp at hp
      rw [hver, vlt_irrefl] at hgt
      exact hgt

/-- Witness for the amended C3: an unparseable string falls back to
`(0, 0, 0)`, and the `R1` representative of the fixture list — which
contains the parseable candidate `1.0.0` with version above `(0, 0, 0)` —
has a parseable version string. -/
theorem parse_version_unparseable_amended_witness :
    parse_version "x.y" = [0, 0, 0] ∧
    parses (wRep.resource_version.getD "0.0.0") = true :=
  ⟨(parse_version_unparseable_amended []).1 "x.y" (by decide),
   (parse_version_unparseable_amended [wDocA, wDocB]).2 wRep (by decide) "R1" (by decide)
     ⟨wDocA, by decide, by decide, by decide⟩⟩

/-! ## Claim C4: pagination window -/

theorem pySlice_nonneg (xs : List Doc) (start stop : Int) (h0 : 0 ≤ start) (h1 : 0 ≤ stop) :
    pySlice xs start stop =
      (xs.drop (min start (xs.length : Int)).toNat).take
        ((min stop (xs.length : Int)).toNat - (min start (xs.length : Int)).toNat) := by
  unfold pySlice
  dsimp only
  rw [if_neg (by omega), if_neg (by omega)]

/-- C4: for every ranked sequence and every valid `page ≥ 1`,
`page_size ∈ 1..100`, the returned page is exactly the window of the
sequence at offsets `[(page-1)*page_size, (page-1)*page_size + page_size)`
clipped to the sequence: it has at most `page_size` elements, position `i`
of the page is position `(page-1)*page_size + i` of the sequence (both
`none` past the end), a page starting beyond the sequence is empty rather
than an error, and `totalCount` is the full sequence length independent of
`page` and `page_size`. -/
theorem search_pagination_window (xs : List Doc) (page page_size : Int)
    (hp : 1 ≤ page) (hs1 : 1 ≤ page_size) (hs2 : page_size ≤ 100) :
    ((search_pagination xs page page_size).1).length ≤ page_size.toNat ∧
    (∀ i : Nat, i < page_size.toNat →
      ((search_pagination xs page page_size).1)[i]? =
        xs[((page - 1) * page_size).toNat + i]?) ∧
    (xs.length ≤ ((page - 1) * page_size).toNat →
      (search_pagination xs page page_size).1 = []) ∧
    (search_pagination xs page page_size).2 = xs.length := by
  have hs0 : 0 ≤ (page - 1) * page_size := mul_nonneg (by omega) (by omega)
  have he0 : 0 ≤ (page - 1) * page_size + page_size :=
    add_nonneg hs0 (le_trans zero_le_one hs1)
  have hunf : search_pagination xs page page_size =
      ((xs.drop (min ((page - 1) * page_size) (xs.length : Int)).toNat).take
        ((min ((page - 1) * page_size + page_size) (xs.length : Int)).toNat -
         (min ((page - 1) * page_size) (xs.length : Int)).toNat), xs.length) := by
    unfold search_pagination
    dsimp only
    rw [pySlice_nonneg xs _ _ hs0 he0]
  rw [hunf]
  simp only
  generalize hst : (page - 1) * page_size = st at hs0 ⊢
  refine ⟨?_, ?_, ?_, trivial⟩
  · rw [List.length_take, List.length_drop]
    omega
  · intro i hi
    by_cases hie :
        i < (min (st + page_size) (xs.length : Int)).toNat - (min st (xs.length : Int)).toNat
    · rw [List.getElem?_take_of_lt hie, List.getElem?_drop]
      have hss : (min st (xs.length : Int)).toNat = st.toNat := by omega
      rw [hss]
    · have hlen : ((xs.drop (min st (xs.length : Int)).toNat).take
          ((min (st + page_size) (xs.length : Int)).toNat -
           (min st (xs.length : Int)).toNat)).length ≤ i := by
        rw [List.length_take, List.length_drop]
        omega
      rw [List.getElem?_eq_none hlen, List.getElem?_eq_none (by omega)]
  · intro h
    have hdrop : xs.drop (min st (xs.length : Int)).toNat = [] :=
      List.drop_eq_nil_iff.mpr (by omega)
    rw [hdrop, List.take_nil]

/-- Witness for C4 at the spec's scenario 3: `page = 100`, `page_size = 10`
against a 3-element consolidated list yields an empty page with total
count 3. -/
theorem search_pagination_window_witness :
    ((search_pagination [wDocA, wDocB, wDocZero] 100 10).1).length ≤ (10 : Int).toNat ∧
    (∀ i : Nat, i < (10 : Int).toNat →
      ((search_pagination [wDocA, wDocB, wDocZero] 100 10).1)[i]? =
        [wDocA, wDocB, wDocZero][(((100 : Int) - 1) * 10).toNat + i]?) ∧
    ([wDocA, wDocB, wDocZero].length ≤ (((100 : Int) - 1) * 10).toNat →
      (search_pagination [wDocA, wDocB, wDocZero] 100 10).1 = []) ∧
    (search_pagination [wDocA, wDocB, wDocZero] 100 10).2 = [wDocA, wDocB, wDocZero].length :=
  search_pagination_window [wDocA, wDocB, wDocZero] 100 10 (by decide) (by decide) (by decide)

/-! ## Claim C8: clean-up removes internal fields, adds the tag, changes nothing else -/

theorem alookup_dictPop_self (k : String) (d : PyDict) : alookup k (dictPop k d) = none := by
  induction d with
  | nil => rfl
  | cons e rest ih =>
    obtain ⟨k0, v0⟩ := e
    by_cases hk : k0 = k
    · simp [dictPop, hk, ih]
    · simp [dictPop, hk, alookup, ih]

theorem alookup_dictPop_ne {k k' : String} (hne : k' ≠ k) (d : PyDict) :
    alookup k' (dictPop k d) = alookup k' d := by
  induction d with
  | nil => rfl
  | cons e rest ih =>
    obtain ⟨k0, v0⟩ := e
    by_cases hk : k0 = k
    · subst hk
      simp [dictPop, alookup, ih, Ne.symm hne]
    · by_cases hk' : k0 = k'
      · subst hk'
        simp [dictPop, hk, alookup]
      · simp [dictPop, hk, hk', alookup, ih]

theorem alookup_dictSet_self (k : String) (v : String) (d : PyDict) :
    alookup k (dictSet k v d) = some v := by
  unfold dictSet
  cases h : alookup k d with
  | none =>
    simp only [h, Option.isSome_none, Bool.false_eq_true, if_false]
    rw [alookup_append_right _ h]
    simp [alookup]
  | some v0 =>
    simp only [h, Option.isSome_some, if_true]
    exact alookup_aupdate_self v h

theorem alookup_dictSet_ne {k k' : String} (hne : k' ≠ k) (v : String) (d : PyDict) :
    alookup k' (dictSet k v d) = alookup k' d := by
  unfold dictSet
  cases h : alookup k d with
  | none =>
    simp only [h, Option.isSome_none, Bool.false_eq_true, if_false]
    cases h' : alookup k' d with
    | none =>
      rw [alookup_append_right _ h']
      simp [alookup, Ne.symm hne]
    | some w => exact alookup_append_left _ h'
  | some v0 =>
    simp only [h, Option.isSome_some, if_true]
    exact alookup_aupdate_ne (fun hc => hne hc.symm) v d

/-- C8: the page clean-up maps each returned document through
`cleanup_doc`, and for every document and every key the cleaned document's
field mapping is: the three Azure-internal keys are removed, the constant
provenance tag `database = "gem5-vision"` is attached, and every other key
is bound exactly as in the input document — no other field is added,
removed or changed. -/
theorem cleanup_page_fields (page : List PyDict) :
    cleanup_page page = page.map cleanup_doc ∧
    ∀ d ∈ page, ∀ k : String,
      alookup k (cleanup_doc d) =
        (if k ∈ keys_to_remove then none
         else if k = "database" then some "gem5-vision"
         else alookup k d) := by
  refine ⟨rfl, ?_⟩
  intro d _ k
  have hfold : keys_to_remove.foldl (fun d k => dictPop k d) d =
      dictPop "@search.reranker_score" (dictPop "@search.highlights" (dictPop "@search.score" d)) := rfl
  unfold cleanup_doc
  rw [hfold]
  by_cases h1 : k = "@search.score"
  · subst h1
    rw [if_pos (by decide)]
    rw [alookup_dictSet_ne (by decide), alookup_dictPop_ne (by decide),
      alookup_dictPop_ne (by decide), alookup_dictPop_self]
  · by_cases h2 : k = "@search.highlights"
    · subst h2
      rw [if_pos (by decide)]
      rw [alookup_dictSet_ne (by decide), alookup_dictPop_ne (by decide),
        alookup_dictPop_self]
    · by_cases h3 : k = "@search.reranker_score"
      · subst h3
        rw [if_pos (by decide)]
        rw [alookup_dictSet_ne (by decide), alookup_dictPop_self]
      · have hmem : k ∉ keys_to_remove := by
          simp [keys_to_remove, h1, h2, h3]
        rw [if_neg hmem]
        by_cases h4 : k = "database"
        · subst h4
          rw [if_pos rfl, alookup_dictSet_self]
        · rw [if_neg h4, alookup_dictSet_ne h4, alookup_dictPop_ne h3,
            alookup_dictPop_ne h2, alookup_dictPop_ne h1]

/-- Witness for C8 on a concrete returned document carrying an internal
score key and an ordinary field. -/
theorem cleanup_page_fields_witness :
    alookup "@search.score" (cleanup_doc [("id", "x"), ("@search.score", "3")]) =
      (if "@search.score" ∈ keys_to_remove then none
       else if "@search.score" = "database" then some "gem5-vision"
       else alookup "@search.score" [("id", "x"), ("@search.score", "3")]) ∧
    alookup "database" (cleanup_doc [("id", "x"), ("@search.score", "3")]) =
      (if "database" ∈ keys_to_remove then none
       else if "database" = "database" then some "gem5-vision"
       else alookup "database" [("id", "x"), ("@search.score", "3")]) ∧
    alookup "id" (cleanup_doc [("id", "x"), ("@search.score", "3")]) =
      (if "id" ∈ keys_to_remove then none
       else if "id" = "database" then some "gem5-vision"
       else alookup "id" [("id", "x"), ("@search.score", "3")]) :=
  ⟨(cleanup_page_fields [[("id", "x"), ("@search.score", "3")]]).2 _ (by decide) "@search.score",
   (cleanup_page_fields [[("id", "x"), ("@search.score", "3")]]).2 _ (by decide) "database",
   (cleanup_page_fields [[("id", "x"), ("@search.score", "3")]]).2 _ (by decide) "id"⟩

/-! ## Claim C6: sorting policies -/

theorem geByKey_trans {K : Type} [LinearOrder K] (key : Doc → K) :
    ∀ a b c : Doc, geByKey key a b → geByKey key b c → geByKey key a c := by
  intro a b c hab hbc
  exact decide_eq_true (le_trans (of_decide_eq_true hbc) (of_decide_eq_true hab))

theorem geByKey_total {K : Type} [LinearOrder K] (key : Doc → K) :
    ∀ a b : Doc, geByKey key a b || geByKey key b a := by
  intro a b
  simp only [geByKey, Bool.or_eq_true, decide_eq_true_eq]
  exact le_total (key b) (key a)

theorem leByKey_trans {K : Type} [LinearOrder K] (key : Doc → K) :
    ∀ a b c : Doc, leByKey key a b → leByKey key b c → leByKey key a c := by
  intro a b c hab hbc
  exact decide_eq_true (le_trans (of_decide_eq_true hab) (of_decide_eq_true hbc))

theorem leByKey_total {K : Type} [LinearOrder K] (key : Doc → K) :
    ∀ a b : Doc, leByKey key a b || leByKey key b a := by
  intro a b
  simp only [leByKey, Bool.or_eq_true, decide_eq_true_eq]
  exact le_total (key a) (key b)

theorem mergeSort_geByKey_pairwise {K : Type} [LinearOrder K] (key : Doc → K) (l : List Doc) :
    (l.mergeSort (geByKey key)).Pairwise (fun a b => key b ≤ key a) := by
  have h := List.sorted_mergeSort (geByKey_trans key) (geByKey_total key) l
  exact h.imp (fun hab => of_decide_eq_true hab)

theorem mergeSort_leByKey_pairwise {K : Type} [LinearOrder K] (key : Doc → K) (l : List Doc) :
    (l.mergeSort (leByKey key)).Pairwise (fun a b => key a ≤ key b) := by
  have h := List.sorted_mergeSort (leByKey_trans key) (leByKey_total key) l
  exact h.imp (fun hab => of_decide_eq_true hab)

theorem mergeSort_geByKey_stable {K : Type} [LinearOrder K] (key : Doc → K) {l : List Doc}
    {a b : Doc} (h : key a = key b) (hs : List.Sublist [a, b] l) :
    List.Sublist [a, b] (l.mergeSort (geByKey key)) :=
  List.pair_sublist_mergeSort (geByKey_trans key) (geByKey_total key)
    (decide_eq_true (le_of_eq h.symm)) hs

theorem mergeSort_leByKey_stable {K : Type} [LinearOrder K] (key : Doc → K) {l : List Doc}
    {a b : Doc} (h : key a = key b) (hs : List.Sublist [a, b] l) :
    List.Sublist [a, b] (l.mergeSort (leByKey key)) :=
  List.pair_sublist_mergeSort (leByKey_trans key) (leByKey_total key)
    (decide_eq_true (le_of_eq h)) hs

/-- C6: `apply_sorting` permutes its input and orders it by the requested
policy: `date` descending on the date field (missing dates read as `""`),
`name`/`id_asc` ascending and `id_desc` descending on the case-folded id,
`version` descending on the maximum `gem5_versions` entry under string
comparison (missing read as `"0"`), and score descending for every token
outside the five recognised ones — in particular any unrecognised token
sorts exactly like `default`.  The sort is stable: two documents whose
active keys are equal and that appear in input order `a` before `b`
remain in that order in the output. -/
theorem apply_sorting_spec (results : List Doc) (sort_param : String) :
    (apply_sorting results sort_param).Perm results ∧
    (sort_param = "date" →
      (apply_sorting results sort_param).Pairwise (fun a b => keyDate b ≤ keyDate a)) ∧
    ((sort_param = "name" ∨ sort_param = "id_asc") →
      (apply_sorting results sort_param).Pairwise (fun a b => keyIdLower a ≤ keyIdLower b)) ∧
    (sort_param = "id_desc" →
      (apply_sorting results sort_param).Pairwise (fun a b => keyIdLower b ≤ keyIdLower a)) ∧
    (sort_param = "version" →
      (apply_sorting results sort_param).Pairwise (fun a b => keyGem5 b ≤ keyGem5 a)) ∧
    (sort_param ∉ ["date", "name", "id_asc", "id_desc", "version"] →
      (apply_sorting results sort_param).Pairwise (fun a b => getScore b ≤ getScore a) ∧
      apply_sorting results sort_param = apply_sorting results "default") ∧
    (∀ a b : Doc, sortKeyEq sort_param a b → List.Sublist [a, b] results →
      List.Sublist [a, b] (apply_sorting results sort_param)) := by
  by_cases h1 : sort_param = "date"
  · subst h1
    have happ : apply_sorting results "date" = results.mergeSort (geByKey keyDate) := by
      unfold apply_sorting
      rw [if_pos rfl]
    refine ⟨?_, ?_, ?_, ?_, ?_, ?_, ?_⟩
    · rw [happ]; exact List.mergeSort_perm results _
    · intro _; rw [happ]; exact mergeSort_geByKey_pairwise keyDate results
    · intro hc; rcases hc with hc | hc <;> exact absurd hc (by decide)
    · intro hc; exact absurd hc (by decide)
    · intro hc; exact absurd hc (by decide)
    · intro hc; exact absurd (by decide : "date" ∈ ["date", "name", "id_asc", "id_desc", "version"]) hc
    · intro a b hk hs
      unfold sortKeyEq at hk
      rw [if_pos rfl] at hk
      rw [happ]
      exact mergeSort_geByKey_stable keyDate hk hs
  · by_cases h2 : sort_param = "name" ∨ sort_param = "id_asc"
    · have happ : apply_sorting results sort_param = results.mergeSort (leByKey keyIdLower) := by
        unfold apply_sorting
        rw [if_neg h1, if_pos h2]
      have hne3 : sort_param ≠ "id_desc" := by
        rcases h2 with h | h <;> subst h <;> decide
      have hne4 : sort_param ≠ "version" := by
        rcases h2 with h | h <;> subst h <;> decide
      refine ⟨?_, ?_, ?_, ?_, ?_, ?_, ?_⟩
      · rw [happ]; exact List.mergeSort_perm results _
      · intro hc; exact absurd hc h1
      · intro _; rw [happ]; exact mergeSort_leByKey_pairwise keyIdLower results
      · intro hc; exact absurd hc hne3
      · intro hc; exact absurd hc hne4
      · intro hc
        refine absurd ?_ hc
        rcases h2 with h | h <;> subst h <;> decide
      · intro a b hk hs
        unfold sortKeyEq at hk
        rw [if_neg h1, if_pos h2] at hk
        rw [happ]
        exact mergeSort_leByKey_stable keyIdLower hk hs
    · by_cases h3 : sort_param = "id_desc"
      · subst h3
        have happ : apply_sorting results "id_desc" = results.mergeSort (geByKey keyIdLower) := by
          unfold apply_sorting
          rw [if_neg h1, if_neg h2, if_pos rfl]
        refine ⟨?_, ?_, ?_, ?_, ?_, ?_, ?_⟩
        · rw [happ]; exact List.mergeSort_perm results _
        · intro hc; exact absurd hc h1
        · intro hc; exact absurd hc h2
        · intro _; rw [happ]; exact mergeSort_geByKey_pairwise keyIdLower results
        · intro hc; exact absurd hc (by decide)
        · intro hc; exact absurd (by decide : "id_desc" ∈ ["date", "name", "id_asc", "id_desc", "version"]) hc
        · intro a b hk hs
          unfold sortKeyEq at hk
          rw [if_neg h1, if_neg h2, if_pos rfl] at hk
          rw [happ]
          exact mergeSort_geByKey_stable keyIdLower hk hs
      · by_cases h4 : sort_param = "version"
        · subst h4
          have happ : apply_sorting results "version" = results.mergeSort (geByKey keyGem5) := by
            unfold apply_sorting
            rw [if_neg h1, if_neg h2, if_neg h3, if_pos rfl]
          refine ⟨?_, ?_, ?_, ?_, ?_, ?_, ?_⟩
          · rw [happ]; exact List.mergeSort_perm results _
          · intro hc; exact absurd hc h1
          · intro hc; exact absurd hc h2
          · intro hc; exact absurd hc h3
          · intro _; rw [happ]; exact mergeSort_geByKey_pairwise keyGem5 results
          · intro hc; exact absurd (by decide : "version" ∈ ["date", "name", "id_asc", "id_desc", "version"]) hc
          · intro a b hk hs
            unfold sortKeyEq at hk
            rw [if_neg h1, if_neg h2, if_neg h3, if_pos rfl] at hk
            rw [happ]
            exact mergeSort_geByKey_stable keyGem5 hk hs
        · have happ : apply_sorting results sort_param = results.mergeSort (geByKey getScore) := by
            unfold apply_sorting
            rw [if_neg h1, if_neg h2, if_neg h3, if_neg h4]
          have hdef : apply_sorting results "default" = results.mergeSort (geByKey getScore) := by
            unfold apply_sorting
            rw [if_neg (by decide), if_neg (by decide), if_neg (by decide), if_neg (by decide)]
          refine ⟨?_, ?_, ?_, ?_, ?_, ?_, ?_⟩
          · rw [happ]; exact List.mergeSort_perm results _
          · intro hc; exact absurd hc h1
          · intro hc; exact absurd hc h2
          · intro hc; exact absurd hc h3
          · intro hc; exact absurd hc h4
          · intro _
            rw [happ, hdef]
            exact ⟨mergeSort_geByKey_pairwise getScore results, rfl⟩
          · intro a b hk hs
            unfold sortKeyEq at hk
            rw [if_neg h1, if_neg h2, if_neg h3, if_neg h4] at hk
            rw [happ]
            exact mergeSort_geByKey_stable getScore hk hs

/-- Witness for C6: sorting two same-id documents by `id_asc` yields a
sequence ascending in the case-folded id, and their original relative
order (equal keys) is preserved. -/
theorem apply_sorting_spec_witness :
    (apply_sorting [wDocB, wDocA] "id_asc").Pairwise (fun a b => keyIdLower a ≤ keyIdLower b) ∧
    List.Sublist [wDocB, wDocA] (apply_sorting [wDocB, wDocA] "id_asc") :=
  ⟨(apply_sorting_spec [wDocB, wDocA] "id_asc").2.2.1 (Or.inr rfl),
   (apply_sorting_spec [wDocB, wDocA] "id_asc").2.2.2.2.2.2 wDocB wDocA
     (by simp [sortKeyEq]; rfl) (List.Sublist.refl _)⟩

/-! ## Claim C5: query translation -/

set_option maxRecDepth 8000 in
/-- Counterexample to C5 as stated: for the phrase `ubuntu` the clause the
source builds is not the clause spanning exactly the five fields — the
source appends two additional unqualified disjuncts (`"term"` and
`term*`) not tied to any of the five fields. -/
theorem build_search_text_counterexample :
    build_search_text "ubuntu" ≠ build_search_text_claimed "ubuntu" := by
  decide

theorem term_clause_eq_amended (e : String) : term_clause e = term_clause_amended e := by
  apply String.ext
  simp [term_clause, term_clause_amended, claim_field_matches, query_fields, pyJoin,
    String.data_append, List.append_assoc]

/-- C5 amended: for the empty phrase the query text is the match-all
sentinel `*` with the simple query type and no boosting; for a non-empty
phrase the text is the `" AND "`-conjunction, over the whitespace-split
terms, of a parenthesised `" OR "`-disjunction per escaped term spanning
the five fields id, description, category, architecture, tags — an
exact-phrase and a prefix match per field, the id matches boosted `^10` —
plus an unqualified exact-phrase match and an unqualified prefix match
(so the clause is not limited to exactly those five fields). -/
theorem build_search_text_amended_spec (contains_str : String) :
    build_search_text contains_str = build_search_text_amended contains_str := by
  unfold build_search_text build_search_text_amended
  by_cases h : contains_str = ""
  · simp [h]
  · simp only [h, ne_eq, not_false_iff, if_pos]
    refine congrArg (fun t => (t, "full")) ?_
    refine congrArg (pyJoin " AND ") ?_
    exact List.map_congr_left (fun t _ => term_clause_eq_amended (escape_lucene_query t))

/-! ## Claim C7: invalid requests are rejected before the backend call -/

theorem parse_groups_error (gs : List String) (qo : QueryObject)
    (h : gs.any group_malformed = true) :
    ∃ msg, parse_must_include_groups gs qo = Except.error msg := by
  induction gs generalizing qo with
  | nil => simp at h
  | cons g rest ih =>
    rw [List.any_cons] at h
    by_cases hg : group_malformed g = true
    · unfold group_malformed at hg
      rw [Bool.and_eq_true] at hg
      obtain ⟨hne, hbad⟩ := hg
      have hgne : g ≠ "" := by simpa using hne
      unfold parse_must_include_groups
      rw [if_neg hgne]
      cases hsp : splitChar (fun c => c = ',') g with
      | nil => exact ⟨_, rfl⟩
      | cons f vs0 =>
        cases vs0 with
        | nil => exact ⟨_, rfl⟩
        | cons v1 vs =>
          rw [hsp] at hbad
          simp only [Bool.not_eq_eq_eq_not, Bool.not_true, List.map_cons] at hbad
          simp only [List.map_cons, hbad, Bool.false_eq_true, if_false]
          exact ⟨_, rfl⟩
    · have hr : rest.any group_malformed = true := by
        cases hgm : group_malformed g with
        | false => simpa [hgm] using h
        | true => exact absurd hgm hg
      unfold parse_must_include_groups
      by_cases hge : g = ""
      · rw [if_pos hge]
        exact ih qo hr
      · rw [if_neg hge]
        have hgf : group_malformed g = false := Bool.eq_false_iff.mpr hg
        unfold group_malformed at hgf
        rw [Bool.and_eq_false_iff] at hgf
        rcases hgf with hgf | hgf
        · exact absurd (by simpa using hgf) (fun hc => hge hc)
        · cases hsp : splitChar (fun c => c = ',') g with
          | nil =>
            rw [hsp] at hgf
            simp at hgf
          | cons f vs0 =>
            cases vs0 with
            | nil =>
              rw [hsp] at hgf
              simp at hgf
            | cons v1 vs =>
              rw [hsp] at hgf
              simp only [Bool.not_eq_eq_eq_not, Bool.not_false, List.map_cons] at hgf
              simp only [List.map_cons, hgf, if_true]
              exact ih _ hr

/-- C7: a request whose pagination parameters are invalid (non-integer
`page` or `page-size`, `page < 1`, or `page-size` outside `1..100`) or
whose must-include filter is malformed (a nonempty clause with fewer than
two comma-separated tokens, or a value failing identifier sanitisation)
is answered with a status-400 error message, and the handler never builds
a backend query (`Phase1Result.backend` is the only way a backend call is
made in this embedding). -/
theorem search_resources_rejects_invalid (p : Params)
    (h : pagination_invalid p = true ∨ must_include_malformed p = true) :
    ∃ msg, search_resources_phase1 p = Phase1Result.error 400 msg := by
  unfold search_resources_phase1
  dsimp only
  cases hpg : page_parse p with
  | none => exact ⟨_, rfl⟩
  | some page =>
    cases hps : page_size_parse p with
    | none => exact ⟨_, rfl⟩
    | some sz =>
      dsimp only
      by_cases h1 : page < 1
      · rw [if_pos h1]
        exact ⟨_, rfl⟩
      · rw [if_neg h1]
        by_cases h2 : sz < 1 ∨ sz > 100
        · rw [if_pos h2]
          exact ⟨_, rfl⟩
        · rw [if_neg h2]
          have hmi : must_include_malformed p = true := by
            rcases h with h | h
            · exfalso
              unfold pagination_invalid at h
              rw [hpg, hps] at h
              simp only [Bool.or_eq_true, decide_eq_true_eq] at h
              rcases h with (h | h) | h
              · exact h1 h
              · exact h2 (Or.inl h)
              · exact h2 (Or.inr h)
            · exact h
          unfold must_include_malformed at hmi
          rw [Bool.and_eq_true] at hmi
          obtain ⟨hne, hany⟩ := hmi
          have hne' : sanitize_must_include p.must_include ≠ "" := by simpa using hne
          rw [if_pos hne']
          obtain ⟨msg, hmsg⟩ := parse_groups_error _ [] hany
          rw [hmsg]
          exact ⟨msg, rfl⟩

/-- Witness for C7 at the spec's own example `page-size=101`. -/
theorem search_resources_rejects_invalid_witness :
    ∃ msg, search_resources_phase1 { page_size := some "101" } = Phase1Result.error 400 msg :=
  search_resources_rejects_invalid { page_size := some "101" } (Or.inl (by decide))

/-! ## Claim C10: unknown filter fields are accepted and ignored -/

theorem alookup_qoSet_ne {field k : String} (hne : field ≠ k) (values : List String)
    (qo : QueryObject) : alookup k (qoSet field values qo) = alookup k qo := by
  unfold qoSet
  by_cases h : (alookup field qo).isSome
  · rw [if_pos h]
    exact alookup_aupdate_ne hne values qo
  · rw [if_neg h]
    cases hk : alookup k qo with
    | none =>
      rw [alookup_append_right _ hk]
      simp [alookup, hne]
    | some v => exact alookup_append_left _ hk

theorem build_odata_filter_congr {qo qo' : QueryObject}
    (h1 : alookup "category" qo = alookup "category" qo')
    (h2 : alookup "architecture" qo = alookup "architecture" qo')
    (h3 : alookup "tags" qo = alookup "tags" qo')
    (h4 : alookup "gem5_versions" qo = alookup "gem5_versions" qo') :
    build_odata_filter qo = build_odata_filter qo' := by
  unfold build_odata_filter
  rw [h1, h2, h3, h4]

theorem parse_groups_ok (gs : List String) (qo : QueryObject)
    (h : gs.any group_malformed = false) :
    ∃ qo', parse_must_include_groups gs qo = Except.ok qo' := by
  induction gs generalizing qo with
  | nil => exact ⟨qo, rfl⟩
  | cons g rest ih =>
    rw [List.any_cons] at h
    have hg : group_malformed g = false := by
      cases hgm : group_malformed g with
      | false => rfl
      | true => rw [hgm] at h; simp at h
    have hrest : rest.any group_malformed = false := by
      rw [hg] at h
      simpa using h
    unfold parse_must_include_groups
    by_cases hge : g = ""
    · rw [if_pos hge]
      exact ih qo hrest
    · rw [if_neg hge]
      unfold group_malformed at hg
      rw [Bool.and_eq_false_iff] at hg
      rcases hg with hg | hg
      · exact absurd (by simpa using hg) (fun hc => hge hc)
      · cases hsp : splitChar (fun c => c = ',') g with
        | nil =>
          rw [hsp] at hg
          simp at hg
        | cons f vs0 =>
          cases vs0 with
          | nil =>
            rw [hsp] at hg
            simp at hg
          | cons v1 vs =>
            rw [hsp] at hg
            simp only [Bool.not_eq_eq_eq_not, Bool.not_false, List.map_cons] at hg
            simp only [List.map_cons, hg, if_true]
            exact ih _ hrest

/-- C10: a well-formed must-include clause naming a field outside the four
recognised filter fields is accepted — a request whose pagination is valid
and whose clauses are all well-formed reaches the backend query, it is not
rejected with 400 — and the unknown field contributes no clause to the
OData filter: inserting it into the query object leaves
`build_odata_filter` unchanged, exactly as if the clause were absent. -/
theorem unknown_filter_field_ignored :
    (∀ (qo : QueryObject) (field : String) (values : List String),
      field ∉ ["category", "architecture", "tags", "gem5_versions"] →
      build_odata_filter (qoSet field values qo) = build_odata_filter qo) ∧
    (∀ p : Params, pagination_invalid p = false → must_include_malformed p = false →
      ∃ st qt f srt pg sz,
        search_resources_phase1 p = Phase1Result.backend st qt f srt pg sz) := by
  constructor
  · intro qo field values hf
    simp only [List.mem_cons, List.not_mem_nil, or_false, not_or] at hf
    obtain ⟨h1, h2, h3, h4⟩ := hf
    exact build_odata_filter_congr (alookup_qoSet_ne h1 values qo)
      (alookup_qoSet_ne h2 values qo) (alookup_qoSet_ne h3 values qo)
      (alookup_qoSet_ne h4 values qo)
  · intro p hpag hmi
    unfold search_resources_phase1
    dsimp only
    cases hpg : page_parse p with
    | none =>
      unfold pagination_invalid at hpag
      rw [hpg] at hpag
      simp at hpag
    | some page =>
      cases hps : page_size_parse p with
      | none =>
        unfold pagination_invalid at hpag
        rw [hpg, hps] at hpag
        simp at hpag
      | some sz =>
        unfold pagination_invalid at hpag
        rw [hpg, hps] at hpag
        simp only [Bool.or_eq_false_iff, decide_eq_false_iff_not, not_lt] at hpag
        obtain ⟨⟨hp1, hp2⟩, hp3⟩ := hpag
        dsimp only
        rw [if_neg (by omega), if_neg (by push_neg; omega)]
        by_cases hmie : sanitize_must_include p.must_include = ""
        · rw [if_neg (by simp [hmie])]
          exact ⟨_, _, _, _, _, _, rfl⟩
        · rw [if_pos hmie]
          have hany : (splitChar (fun c => c = ';')
              (sanitize_must_include p.must_include)).any group_malformed = false := by
            unfold must_include_malformed at hmi
            rw [Bool.and_eq_false_iff] at hmi
            rcases hmi with hmi | hmi
            · exact absurd (by simpa using hmi) (fun hc => hmie hc)
            · exact hmi
          obtain ⟨qo', hqo⟩ := parse_groups_ok _ [] hany
          rw [hqo]
          exact ⟨_, _, _, _, _, _, rfl⟩

/-- Witness for C10: the unknown field `foo` with value `bar` adds nothing
to the filter built from an empty query object, and the request carrying
`must-include=foo,bar` reaches the backend query. -/
theorem unknown_filter_field_ignored_witness :
    build_odata_filter (qoSet "foo" ["bar"] []) = build_odata_filter [] ∧
    ∃ st qt f srt pg sz,
      search_resources_phase1 { must_include := "foo,bar" } =
        Phase1Result.backend st qt f srt pg sz :=
  ⟨unknown_filter_field_ignored.1 [] "foo" ["bar"] (by decide),
   unknown_filter_field_ignored.2 { must_include := "foo,bar" } (by decide) (by decide)⟩
